import Mathlib

/-!
Verification development for the spiderfs-mcp file access/mutation engine
(`src/spiderfs_mcp/file/reader.py`, `writer.py`, `streamer.py`).

The Python code is shallowly embedded: file text is a `List Char` (the code
reads files in universal-newline text mode, so `'\n'` is the only line
terminator present in decoded content), a file on disk is an
`Option (List Char)` (`none` = missing or not a regular file), and the
environment-dependent I/O failures (backup copy failure, read exception,
write exception, move failure) are explicit parameters.  Every operation is
a pure function from the pre-state to a result record plus the post-state
of the target file and of its `.bak` sibling.  The final
`shutil.move(temp_path, file_path)` step is modelled after the stdlib's
semantics for a temp file created by `NamedTemporaryFile` with no `dir=`
argument, i.e. in the system temp directory: on the same filesystem the
move is an all-or-nothing `os.rename`, but across filesystems it degrades
to `copy2` + unlink, and an exception raised mid-copy (caught by the
surrounding `except`) leaves the destination holding a prefix of the new
content.
-/

namespace SpiderFS

/-- Decoded text content: a list of characters. -/
abbrev Content := List Char

/-! ## Line splitting (Python `str.splitlines` / `readlines`) -/

/-- Worker for `splitlinesKeep`: `acc` holds the chars of the current line,
in reverse.  Mirrors Python `splitlines(True)` restricted to `'\n'`
terminators, which is also exactly what `f.readlines()` produces in
universal-newline text mode. -/
def splitKeepAux : List Char → List Char → List (List Char)
  | [], acc => if acc = [] then [] else [acc.reverse]
  | c :: rest, acc =>
    if c = '\n' then (acc.reverse ++ ['\n']) :: splitKeepAux rest []
    else splitKeepAux rest (c :: acc)

/-- Python `content.splitlines(True)` / `f.readlines()`: split into lines,
each keeping its trailing terminator; a final unterminated line is kept,
and a trailing terminator does not create an empty final line. -/
def splitlinesKeep (s : Content) : List (List Char) :=
  splitKeepAux s []

/-- Worker for `splitlinesNoKeep`. -/
def splitNoKeepAux : List Char → List Char → List (List Char)
  | [], acc => if acc = [] then [] else [acc.reverse]
  | c :: rest, acc =>
    if c = '\n' then acc.reverse :: splitNoKeepAux rest []
    else splitNoKeepAux rest (c :: acc)

/-- Python `content.splitlines()` (terminators dropped, `'\n'` only). -/
def splitlinesNoKeep (s : Content) : List (List Char) :=
  splitNoKeepAux s []

/-- `"".join(lines)` — concatenation of the line list. -/
def joinLines (ls : List (List Char)) : Content :=
  ls.flatten

/-! ## Range reader (`file/reader.py`) -/

/-- `LineRange` from `reader.py`: 1-based inclusive line range.  The Python
field `end` is a Lean keyword, hence the quoted field name. -/
structure LineRange where
  start : Int
  «end» : Int
deriving DecidableEq, Repr

/-- The distinct error messages `FileReader.read_line_range` can return,
as an enumeration (the Python code returns strings). -/
inductive RErr where
  /-- "File not found: …" / "Not a file: …" (the file argument is `none`). -/
  | fileNotFound
  /-- "Line numbers must be >= 1". -/
  | lineNumbersLow
  /-- "End line must be >= start line". -/
  | endBeforeStart
  /-- "Encoding error: …" (a `UnicodeDecodeError` while reading). -/
  | encodingError
deriving DecidableEq, Repr

/-- The spec groups both range-validation messages of the reader under the
single error kind `InvalidRange` (§4.2, §7). -/
def RErr.isInvalidRange : RErr → Bool
  | .lineNumbersLow => true
  | .endBeforeStart => true
  | _ => false

/-- `FileReadResult` from `reader.py`.  The metadata dict is modelled by one
optional field per key it can carry. -/
structure FileReadResult where
  content : Content
  line_range : LineRange
  error : Option RErr
  /-- metadata key `"file_size"`. -/
  file_size : Option Nat
  /-- metadata key `"total_lines"` (the reader's `line_count`: lines skipped
  before the range plus lines actually read). -/
  total_lines : Option Nat
  /-- metadata key `"target_line"` (context reads only). -/
  target_line : Option Int
  /-- metadata key `"context_lines"` (context reads only). -/
  context_lines : Option Int
deriving DecidableEq, Repr

/-- `FileReader.read_line_range`.  `file` is the target file's content
(`none` = missing or not a regular file); `decodeOK` is false when opening
the file with the resolved encoding raises `UnicodeDecodeError`. -/
def read_line_range (file : Option Content) (line_range : LineRange)
    (decodeOK : Bool) : FileReadResult :=
  match file with
  | none => ⟨[], line_range, some .fileNotFound, none, none, none, none⟩
  | some content =>
    if line_range.start < 1 then
      ⟨[], line_range, some .lineNumbersLow, none, none, none, none⟩
    else if line_range.«end» < line_range.start then
      ⟨[], line_range, some .endBeforeStart, none, none, none, none⟩
    else if ¬ decodeOK then
      ⟨[], line_range, some .encodingError, none, none, none, none⟩
    else
      let lines := splitlinesKeep content
      -- skip `start - 1` readline calls (stopping early at EOF) …
      let skipped := min (line_range.start - 1).toNat lines.length
      -- … then read `end - start + 1` lines (stopping early at EOF)
      let body := (lines.drop (line_range.start - 1).toNat).take
        (line_range.«end» - line_range.start + 1).toNat
      ⟨joinLines body, line_range, none,
        some content.length, some (skipped + body.length), none, none⟩

/-- `FileReader.read_context_around_line`: build the context range and
delegate to `read_line_range`, then add the two context metadata keys
(also on error results, where the metadata dict is created fresh). -/
def read_context_around_line (file : Option Content) (line_number : Int)
    (context_lines : Int) (decodeOK : Bool) : FileReadResult :=
  let start_line := max 1 (line_number - context_lines)
  let end_line := line_number + context_lines
  let res := read_line_range file ⟨start_line, end_line⟩ decodeOK
  { res with target_line := some line_number, context_lines := some context_lines }

/-! ## Mutation engine (`file/writer.py`) -/

/-- `LineEdit` from `writer.py`: 1-based inclusive line numbers. -/
structure LineEdit where
  line_start : Int
  line_end : Int
  new_content : Content
deriving DecidableEq

/-- The distinct error messages `FileWriter` can return, as an enumeration
(the Python code returns strings). -/
inductive WErr where
  /-- "File not found: …" / "Not a file: …". -/
  | fileNotFound
  /-- "Error creating backup: …" / backup target missing. -/
  | backupFailed
  /-- "Invalid line number: …. Line numbers must be >= 1". -/
  | invalidLineNumber
  /-- "Invalid line range: …. End must be >= start". -/
  | invalidLineRange
  /-- "Line start … is beyond the end of file (… lines)". -/
  | lineBeyondEOF
  /-- an I/O or decode exception caught by the surrounding `try`. -/
  | ioError
deriving DecidableEq

/-- Environment-dependent I/O behaviour of one writer call: whether the
`shutil.copy2` backup copy raises, whether opening/reading the target
raises, whether writing the temporary file raises, and how the final
`shutil.move` behaves. -/
structure Env where
  backupFails : Bool
  readFails : Bool
  writeFails : Bool
  /-- the system temp directory — where `NamedTemporaryFile` with no `dir=`
  creates the temp file (`writer.py` lines 163, 281) — is on a different
  filesystem than the target, so `shutil.move` falls back from
  `os.rename` to `copy2` + unlink. -/
  moveCrossDevice : Bool
  /-- `shutil.move` raises. -/
  moveFails : Bool
  /-- how many characters the cross-device fallback copy had written to the
  (truncated) destination when it raised. -/
  movePartial : Nat
deriving DecidableEq

/-- The environment in which no I/O operation fails. -/
def envOK : Env := ⟨false, false, false, false, false, 0⟩

/-- `FileWriteResult` from `writer.py`.  `backup_path` records whether the
result's `backup_path` attribute is non-None; the metadata dict is modelled
by one optional field per key it can carry. -/
structure FileWriteResult where
  success : Bool
  changed_lines : Nat
  error : Option WErr
  backup_path : Bool
  /-- metadata key `"unchanged"`. -/
  unchanged : Bool
  /-- metadata key `"replacements"` (`replace_string` success only). -/
  replacements : Option Nat
deriving DecidableEq

/-- A writer call's result together with the post-state of the target file
and of its `.bak` sibling (assumed absent before the call). -/
structure WriteOutcome where
  result : FileWriteResult
  fileAfter : Option Content
  backupAfter : Option Content
deriving DecidableEq

/-- Python `line.endswith('\n')`. -/
def endsWithNL (l : List Char) : Bool :=
  l.getLast? = some '\n'

/-- The writer's post-split fixup: every line but the last is forced to end
with `'\n'` (`writer.py` lines 149–151). -/
def ensureNewlines : List (List Char) → List (List Char)
  | [] => []
  | [l] => [l]
  | l :: rest => (if endsWithNL l then l else l ++ ['\n']) :: ensureNewlines rest

/-- `sorted(edits, key=lambda e: e.line_start, reverse=True)`: stable
descending sort by `line_start`. -/
def sortEditsDesc (edits : List LineEdit) : List LineEdit :=
  List.insertionSort (fun a b => b.line_start ≤ a.line_start) edits

/-- The pre-loop validation pass over the sorted edits
(`writer.py` lines 106–116). -/
def findValidationError : List LineEdit → Option WErr
  | [] => none
  | e :: rest =>
    if e.line_start < 1 then some .invalidLineNumber
    else if e.line_end < e.line_start then some .invalidLineRange
    else findValidationError rest

/-- The edit-application loop (`writer.py` lines 130–160): each edit is
checked against the `total_lines` of the original file, then the current
line list's slice `[line_start - 1, min(line_end, total_lines))` is
replaced, and the slice width is added to `changed_lines` when the
replacement differs from what it replaced. -/
def applyEditsLoop (total : Nat) :
    List LineEdit → List (List Char) → Nat → Except WErr (List (List Char) × Nat)
  | [], lines, changed => .ok (lines, changed)
  | e :: rest, lines, changed =>
    if (total : Int) < e.line_start then .error .lineBeyondEOF
    else
      let start_idx := (e.line_start - 1).toNat
      let end_idx := (min e.line_end (total : Int)).toNat
      let newLines := ensureNewlines (splitlinesKeep e.new_content)
      let originalSection := (lines.take end_idx).drop start_idx
      let lines2 := lines.take start_idx ++ newLines ++ lines.drop end_idx
      applyEditsLoop total rest lines2
        (changed + (if originalSection = newLines then 0 else end_idx - start_idx))

/-- `FileWriter.apply_line_edits`.  The temp-file write plus `shutil.move`
is modelled as one atomic replacement of the destination content; the
`filecmp.cmp` no-op test is content equality. -/
def apply_line_edits (file : Option Content) (edits : List LineEdit)
    (create_backup : Bool) (env : Env) : WriteOutcome :=
  match file with
  | none => ⟨⟨false, 0, some .fileNotFound, false, false, none⟩, none, none⟩
  | some content =>
    if create_backup ∧ env.backupFails then
      ⟨⟨false, 0, some .backupFailed, false, false, none⟩, some content, none⟩
    else
      let backup : Option Content := if create_backup then some content else none
      let sorted_edits := sortEditsDesc edits
      match findValidationError sorted_edits with
      | some e => ⟨⟨false, 0, some e, false, false, none⟩, some content, backup⟩
      | none =>
        if env.readFails then
          ⟨⟨false, 0, some .ioError, false, false, none⟩, some content, backup⟩
        else
          let lines := splitlinesKeep content
          match applyEditsLoop lines.length sorted_edits lines 0 with
          | .error e => ⟨⟨false, 0, some e, false, false, none⟩, some content, backup⟩
          | .ok (newLines, changed) =>
            if env.writeFails then
              ⟨⟨false, 0, some .ioError, false, false, none⟩, some content, backup⟩
            else
              let newContent := joinLines newLines
              if changed = 0 ∧ newContent = content then
                -- no-op: discard temp file, delete the fresh backup
                ⟨⟨true, 0, none, false, true, none⟩, some content, none⟩
              else if env.moveFails then
                -- shutil.move raises; the surrounding except returns failure
                if env.moveCrossDevice then
                  -- the fallback copy died mid-write: the destination holds
                  -- a prefix of the new content
                  ⟨⟨false, 0, some .ioError, false, false, none⟩,
                    some (newContent.take env.movePartial), backup⟩
                else
                  -- os.rename is all-or-nothing: nothing happened
                  ⟨⟨false, 0, some .ioError, false, false, none⟩, some content, backup⟩
              else
                ⟨⟨true, changed, none, create_backup, false, none⟩, some newContent, backup⟩

/-- Whether `old` is an initial segment of the second list. -/
def leadsWith : List Char → List Char → Bool
  | [], _ => true
  | _ :: _, [] => false
  | a :: as, b :: bs => a == b && leadsWith as bs

/-- Python `old in content` for strings. -/
def occursIn (old : List Char) : List Char → Bool
  | [] => old.isEmpty
  | c :: rest => leadsWith old (c :: rest) || occursIn old rest

/-- Python `content.count(old)`: non-overlapping occurrences, scanned left
to right (`s.count('')` is `len(s) + 1`). -/
def countOccur (old content : List Char) : Nat :=
  match content with
  | [] => if old = [] then 1 else 0
  | c :: rest =>
    if h : old ≠ [] ∧ leadsWith old (c :: rest) then
      1 + countOccur old ((c :: rest).drop old.length)
    else
      (if old = [] then 1 else 0) + countOccur old rest
termination_by content.length
decreasing_by
  · simp only [List.length_drop, List.length_cons]
    have : 1 ≤ old.length := List.length_pos.mpr h.1
    omega
  · simp

/-- One step down on an optional replacement budget. -/
def decLimit : Option Nat → Option Nat
  | none => none
  | some n => some (n - 1)

/-- Python `content.replace(old, new)` (`limit = none`) and
`content.replace(old, new, k)` (`limit = some k`). -/
def pyReplace (content old new : List Char) (limit : Option Nat) : List Char :=
  if limit = some 0 then content
  else
    match content with
    | [] => if old = [] then new else []
    | c :: rest =>
      if h : old = [] then
        new ++ c :: pyReplace rest old new (decLimit limit)
      else if leadsWith old (c :: rest) then
        new ++ pyReplace ((c :: rest).drop old.length) old new (decLimit limit)
      else
        c :: pyReplace rest old new limit
termination_by content.length
decreasing_by
  · simp
  · simp only [List.length_drop, List.length_cons]
    have : 1 ≤ old.length := List.length_pos.mpr h
    omega
  · simp

/-- The writer's line-wise change count for `replace_string`
(`writer.py` lines 288–296): positions where old and new lines differ,
plus the absolute difference of the line counts. -/
def lineDiffCount (oldC newC : Content) : Nat :=
  let old_lines := splitlinesNoKeep oldC
  let new_lines := splitlinesNoKeep newC
  (List.zip old_lines new_lines).countP (fun p => !(p.1 == p.2))
    + ((old_lines.length - new_lines.length) + (new_lines.length - old_lines.length))

/-- `FileWriter.replace_string`, with the same modelling conventions as
`apply_line_edits`. -/
def replace_string (file : Option Content) (old_string new_string : Content)
    (max_replacements : Nat) (create_backup : Bool) (env : Env) : WriteOutcome :=
  match file with
  | none => ⟨⟨false, 0, some .fileNotFound, false, false, none⟩, none, none⟩
  | some content =>
    if create_backup ∧ env.backupFails then
      ⟨⟨false, 0, some .backupFailed, false, false, none⟩, some content, none⟩
    else
      let backup : Option Content := if create_backup then some content else none
      if env.readFails then
        ⟨⟨false, 0, some .ioError, false, false, none⟩, some content, backup⟩
      else if ¬ occursIn old_string content then
        -- short-circuit: nothing to do, delete the fresh backup
        ⟨⟨true, 0, none, false, true, none⟩, some content, none⟩
      else
        let new_content :=
          if 0 < max_replacements then
            pyReplace content old_string new_string (some max_replacements)
          else
            pyReplace content old_string new_string none
        let replacements :=
          if 0 < max_replacements then min max_replacements (countOccur old_string content)
          else countOccur old_string content
        if content = new_content then
          ⟨⟨true, 0, none, false, true, none⟩, some content, none⟩
        else if env.writeFails then
          ⟨⟨false, 0, some .ioError, false, false, none⟩, some content, backup⟩
        else if env.moveFails then
          -- shutil.move raises; the surrounding except returns failure
          if env.moveCrossDevice then
            -- the fallback copy died mid-write: the destination holds a
            -- prefix of the new content
            ⟨⟨false, 0, some .ioError, false, false, none⟩,
              some (new_content.take env.movePartial), backup⟩
          else
            -- os.rename is all-or-nothing: nothing happened
            ⟨⟨false, 0, some .ioError, false, false, none⟩, some content, backup⟩
        else
          ⟨⟨true, lineDiffCount content new_content, none, create_backup, false,
              some replacements⟩,
            some new_content, backup⟩

/-! ## Chunk streamer (`file/streamer.py`) -/

/-- The metadata dict attached to one streamed chunk, modelled by one
optional field per key it can carry; `error` records whether the `"error"`
key is present.  Line-mode chunks populate the `lines_*` keys, byte-mode
chunks the `bytes_*` keys and `is_last_chunk`. -/
structure ChunkMeta where
  chunk_number : Nat
  error : Bool
  file_size : Option Nat
  lines_in_chunk : Option Nat
  lines_read_so_far : Option Nat
  estimated_total_chunks : Option Nat
  bytes_in_chunk : Option Nat
  bytes_read_so_far : Option Nat
  is_last_chunk : Option Bool
deriving DecidableEq

/-- The sentinel error chunk's metadata: `{"error": …, "chunk_number": 0,
"total_chunks": 0}`. -/
def errChunkMeta : ChunkMeta :=
  ⟨0, true, none, none, none, none, none, none, none⟩

/-- The `while True` loop of `stream_file_by_lines`: read up to
`chunk_size` lines, yield them with metadata, stop when nothing was read. -/
def streamLinesLoop (chunk_size fileSize : Nat) (lines : List (List Char))
    (chunk_number total_lines : Nat) : List (Content × ChunkMeta) :=
  let g := lines.take chunk_size
  if h : g = [] then []
  else
    (joinLines g,
      ⟨chunk_number + 1, false, some fileSize, some g.length,
        some (total_lines + g.length), none, none, none, none⟩)
      :: streamLinesLoop chunk_size fileSize (lines.drop chunk_size)
          (chunk_number + 1) (total_lines + g.length)
termination_by lines.length
decreasing_by
  have h1 : lines ≠ [] := by
    intro e
    exact h (by simp [g, e])
  have h2 : chunk_size ≠ 0 := by
    intro e
    exact h (by simp [g, e])
  have h3 := List.length_pos.mpr h1
  simp only [List.length_drop]
  omega

/-- `FileStreamer.stream_file_by_lines`: the lazy generator, materialised
as the (finite) list of `(payload, metadata)` pairs it yields. -/
def stream_file_by_lines (file : Option Content) (chunk_size : Nat) :
    List (Content × ChunkMeta) :=
  match file with
  | none => [([], errChunkMeta)]
  | some content =>
    streamLinesLoop chunk_size content.length (splitlinesKeep content) 0 0

/-- The `while True` loop of `stream_file_by_bytes`: read up to
`byte_chunk_size` bytes, yield them with metadata (including
`is_last_chunk = bytes_read >= file_size`), stop at EOF. -/
def streamBytesLoop (byte_chunk_size fileSize estimated : Nat) (bytes : Content)
    (chunk_number bytes_read : Nat) : List (Content × ChunkMeta) :=
  let chunk := bytes.take byte_chunk_size
  if h : chunk = [] then []
  else
    (chunk,
      ⟨chunk_number + 1, false, some fileSize, none, none, some estimated,
        some chunk.length, some (bytes_read + chunk.length),
        some (decide (fileSize ≤ bytes_read + chunk.length))⟩)
      :: streamBytesLoop byte_chunk_size fileSize estimated
          (bytes.drop byte_chunk_size) (chunk_number + 1) (bytes_read + chunk.length)
termination_by bytes.length
decreasing_by
  have h1 : bytes ≠ [] := by
    intro e
    exact h (by simp [chunk, e])
  have h2 : byte_chunk_size ≠ 0 := by
    intro e
    exact h (by simp [chunk, e])
  have h3 := List.length_pos.mpr h1
  simp only [List.length_drop]
  omega

/-- `FileStreamer.stream_file_by_bytes`.  A zero `byte_chunk_size` makes the
Python code raise `ZeroDivisionError` while computing `estimated_chunks`,
which the outer `except` turns into the single sentinel error chunk. -/
def stream_file_by_bytes (file : Option Content) (byte_chunk_size : Nat) :
    List (Content × ChunkMeta) :=
  match file with
  | none => [([], errChunkMeta)]
  | some content =>
    if byte_chunk_size = 0 then [([], errChunkMeta)]
    else
      let estimated := (content.length + byte_chunk_size - 1) / byte_chunk_size
      streamBytesLoop byte_chunk_size content.length estimated content 0 0

/-! ## Specification-side definitions used by the claim statements -/

/-- An edit that passes all of the writer's checks against a file of
`total` lines: `line_start ≥ 1`, `line_end ≥ line_start`, and
`line_start ≤ total`. -/
def editValid (total : Nat) (e : LineEdit) : Prop :=
  1 ≤ e.line_start ∧ e.line_start ≤ e.line_end ∧ e.line_start ≤ (total : Int)

/-- The last original line an edit touches: `min(line_end, total_lines)`. -/
def spanHi (total : Nat) (e : LineEdit) : Int :=
  min e.line_end (total : Int)

/-- Two edits whose touched original line spans
`[line_start, min(line_end, total)]` are disjoint. -/
def disjointEdits (total : Nat) (a b : LineEdit) : Prop :=
  spanHi total a < b.line_start ∨ spanHi total b < a.line_start

instance (total : Nat) (e : LineEdit) : Decidable (editValid total e) :=
  inferInstanceAs (Decidable (_ ∧ _ ∧ _))

instance (total : Nat) (a b : LineEdit) : Decidable (disjointEdits total a b) :=
  inferInstanceAs (Decidable (_ ∨ _))

/-- The number of original lines an edit contributes to `changed_lines`:
the width of its original span when the replacement differs from the
original lines it replaces, and `0` otherwise. -/
def origContrib (orig : List (List Char)) (e : LineEdit) : Nat :=
  let s := (e.line_start - 1).toNat
  let t := (spanHi orig.length e).toNat
  if (orig.take t).drop s = ensureNewlines (splitlinesKeep e.new_content) then 0
  else t - s

/-! ## Helper lemmas -/

theorem splitKeepAux_flatten (s : List Char) :
    ∀ acc, joinLines (splitKeepAux s acc) = acc.reverse ++ s := by
  induction s with
  | nil =>
    intro acc
    by_cases h : acc = [] <;> simp [splitKeepAux, joinLines, h]
  | cons c rest ih =>
    intro acc
    by_cases h : c = '\n'
    · simp [splitKeepAux, joinLines, h] at ih ⊢
      simpa using ih []
    · simp only [splitKeepAux, if_neg h]
      simpa using ih (c :: acc)

/-- Splitting with kept terminators and joining is the identity:
`"".join(content.splitlines(True)) == content`. -/
theorem joinLines_splitlinesKeep (s : Content) :
    joinLines (splitlinesKeep s) = s := by
  simpa using splitKeepAux_flatten s []

/-- Replacing the slice `[s, t)` of a list by that very slice is the
identity. -/
theorem slice_ident {α : Type} (l : List α) (s t : Nat) (h : s ≤ t) :
    l.take s ++ ((l.take t).drop s ++ l.drop t) = l := by
  have h1 : (l.take t).take s = l.take s := by
    rw [List.take_take, min_eq_left h]
  calc l.take s ++ ((l.take t).drop s ++ l.drop t)
      = ((l.take t).take s ++ (l.take t).drop s) ++ l.drop t := by
        rw [h1, List.append_assoc]
    _ = l.take t ++ l.drop t := by rw [List.take_append_drop]
    _ = l := List.take_append_drop t l

/-- The pre-loop validation pass succeeds exactly when every edit has
`line_start ≥ 1` and `line_end ≥ line_start`. -/
theorem findValidationError_eq_none (es : List LineEdit) :
    findValidationError es = none ↔
      ∀ e ∈ es, 1 ≤ e.line_start ∧ e.line_start ≤ e.line_end := by
  induction es with
  | nil => simp [findValidationError]
  | cons e rest ih =>
    by_cases h1 : e.line_start < 1
    · simp [findValidationError, h1]
    · by_cases h2 : e.line_end < e.line_start
      · simp [findValidationError, h1, h2]
      · simp [findValidationError, h1, h2, ih]
        intro _
        omega

/-! ## Claim theorems -/

/-- C6 (confirmed): `read_context_around_line(path, n, k)` returns the very
content of `read_line_range(path, LineRange(max(1, n-k), n+k))`, and with
context width 0 on a line inside the file it reads exactly one line. -/
theorem c6_context_read_equals_range_read :
    (∀ (file : Option Content) (n k : Int) (d : Bool),
      (read_context_around_line file n k d).content
        = (read_line_range file ⟨max 1 (n - k), n + k⟩ d).content)
    ∧ (∀ (c : Content) (n : Int), 1 ≤ n → n ≤ ((splitlinesKeep c).length : Int) →
        (read_context_around_line (some c) n 0 true).content
            = joinLines (((splitlinesKeep c).drop (n - 1).toNat).take 1)
        ∧ (((splitlinesKeep c).drop (n - 1).toNat).take 1).length = 1) := by
  constructor
  · intro file n k d
    rfl
  · intro c n h1 h2
    have e1 : max 1 (n - 0) = n := by omega
    have e2 : n + 0 = n := by omega
    constructor
    · show (read_line_range (some c) ⟨max 1 (n - 0), n + 0⟩ true).content = _
      rw [e1, e2]
      simp only [read_line_range]
      rw [if_neg (by omega), if_neg (by omega), if_neg (by simp)]
      have e3 : (n - n + 1).toNat = 1 := by omega
      simp [e3]
    · have e4 : ((splitlinesKeep c).drop (n - 1).toNat).length
          = (splitlinesKeep c).length - (n - 1).toNat := List.length_drop _ _
      have : 1 ≤ ((splitlinesKeep c).drop (n - 1).toNat).length := by omega
      simp only [List.length_take]
      omega

/-- C6 witness: the context-width-0 read at a concrete input. -/
theorem c6_witness :
    (read_context_around_line (some ['A', '\n', 'B', '\n']) 2 0 true).content
        = joinLines (((splitlinesKeep ['A', '\n', 'B', '\n']).drop ((2 : Int) - 1).toNat).take 1)
    ∧ (((splitlinesKeep ['A', '\n', 'B', '\n']).drop ((2 : Int) - 1).toNat).take 1).length = 1 :=
  c6_context_read_equals_range_read.2 ['A', '\n', 'B', '\n'] 2 (by decide) (by decide)

/-- C7 counterexample: the claim quantifies over every path, but for a
missing path with `end < start` the reported error is FileNotFound — the
existence checks run before range validation — not InvalidRange. -/
theorem c7_counterexample :
    (read_line_range none ⟨2, 1⟩ true).error = some RErr.fileNotFound
    ∧ RErr.fileNotFound.isInvalidRange = false := by decide

/-- C7 (corrected): for every existing regular file, reading with
`end < start` fails with one of the two range-validation errors (the
spec's `InvalidRange`), returns empty content, and never touches the
file — the result is the same whatever the file's content is. -/
theorem c7_invalid_range_before_read :
    ∀ (content : Content) (r : LineRange) (d : Bool),
      r.«end» < r.start →
      ∃ e, (read_line_range (some content) r d).error = some e
        ∧ e.isInvalidRange = true
        ∧ (read_line_range (some content) r d).content = []
        ∧ ∀ (c2 : Content) (d2 : Bool),
            read_line_range (some c2) r d2 = read_line_range (some content) r d := by
  intro content r d h
  by_cases h1 : r.start < 1
  · refine ⟨.lineNumbersLow, ?_, rfl, ?_, ?_⟩
    · simp [read_line_range, h1]
    · simp [read_line_range, h1]
    · intro c2 d2
      simp [read_line_range, h1]
  · refine ⟨.endBeforeStart, ?_, rfl, ?_, ?_⟩
    · simp [read_line_range, h1, h]
    · simp [read_line_range, h1, h]
    · intro c2 d2
      simp [read_line_range, h1, h]

/-- C7 witness: the amended theorem at a concrete existing file and
inverted range. -/
theorem c7_witness :
    ∃ e, (read_line_range (some ['A', '\n']) ⟨2, 1⟩ true).error = some e
      ∧ e.isInvalidRange = true
      ∧ (read_line_range (some ['A', '\n']) ⟨2, 1⟩ true).content = []
      ∧ ∀ (c2 : Content) (d2 : Bool),
          read_line_range (some c2) ⟨2, 1⟩ d2
            = read_line_range (some ['A', '\n']) ⟨2, 1⟩ true :=
  c7_invalid_range_before_read ['A', '\n'] ⟨2, 1⟩ true (by decide)

/-- C8 counterexample: reading lines 1–5 of a one-line file succeeds with
only one line (`total_lines = 1`), yet the result's range field is the
requested `[1, 5]`, not the claim's clipped `[1, 1]`. -/
theorem c8_counterexample :
    (read_line_range (some ['A', '\n']) ⟨1, 5⟩ true).error = none
    ∧ (read_line_range (some ['A', '\n']) ⟨1, 5⟩ true).line_range = ⟨1, 5⟩
    ∧ (read_line_range (some ['A', '\n']) ⟨1, 5⟩ true).total_lines = some 1
    ∧ (⟨1, 5⟩ : LineRange) ≠ ⟨1, 1⟩ := by decide

/-- C8 (corrected): the range field of every `read_line_range` result —
including successful reads past EOF — echoes the requested range verbatim;
clipping shows up only in the shorter content and the metadata line
count. -/
theorem c8_range_echoes_request :
    ∀ (file : Option Content) (r : LineRange) (d : Bool),
      (read_line_range file r d).line_range = r := by
  intro file r d
  cases file with
  | none => rfl
  | some content =>
    simp only [read_line_range]
    repeat' split
    all_goals rfl

/-- C10 (confirmed): with backups enabled, when the backup succeeds but a
later edit validation fails (`line_start < 1`, `line_end < line_start`, or
`line_start` beyond the last line), the call fails with no `backup_path`
on the result, while the backup file was created and remains on disk with
the original content. -/
theorem c10_orphan_backup_on_validation_failure :
    ∀ (content : Content) (edits : List LineEdit) (env : Env),
      env.backupFails = false →
      (findValidationError (sortEditsDesc edits) ≠ none
        ∨ (env.readFails = false
            ∧ ∃ err, applyEditsLoop (splitlinesKeep content).length (sortEditsDesc edits)
                (splitlinesKeep content) 0 = Except.error err)) →
      (apply_line_edits (some content) edits true env).result.success = false
      ∧ (apply_line_edits (some content) edits true env).result.backup_path = false
      ∧ (apply_line_edits (some content) edits true env).backupAfter = some content
      ∧ (apply_line_edits (some content) edits true env).fileAfter = some content := by
  intro content edits env hb hfail
  simp only [apply_line_edits, hb, and_false, if_false]
  rcases hfail with hval | ⟨hr, err, hloop⟩
  · rcases hv : findValidationError (sortEditsDesc edits) with _ | e
    · exact absurd hv hval
    · simp [hv]
  · rcases hv : findValidationError (sortEditsDesc edits) with _ | e
    · simp [hv, hr, hloop]
    · simp [hv]

/-- C10 witness: a concrete batch whose first edit has `line_start = 0`. -/
theorem c10_witness :
    (apply_line_edits (some ['A', '\n']) [⟨0, 1, ['x']⟩] true envOK).result.success = false
    ∧ (apply_line_edits (some ['A', '\n']) [⟨0, 1, ['x']⟩] true envOK).result.backup_path = false
    ∧ (apply_line_edits (some ['A', '\n']) [⟨0, 1, ['x']⟩] true envOK).backupAfter = some ['A', '\n']
    ∧ (apply_line_edits (some ['A', '\n']) [⟨0, 1, ['x']⟩] true envOK).fileAfter = some ['A', '\n'] :=
  c10_orphan_backup_on_validation_failure ['A', '\n'] [⟨0, 1, ['x']⟩] envOK rfl
    (Or.inl (by decide))

/-- The edit loop's change counter never decreases, and it stays put only
when every processed edit replaced its slice by identical lines — in which
case the line list is returned unchanged. -/
theorem applyEditsLoop_mono (total : Nat) :
    ∀ (es : List LineEdit) (lines : List (List Char)) (c : Nat)
      (fl : List (List Char)) (c2 : Nat),
      (∀ e ∈ es, 1 ≤ e.line_start ∧ e.line_start ≤ e.line_end) →
      applyEditsLoop total es lines c = .ok (fl, c2) →
      c ≤ c2 ∧ (c2 = c → fl = lines) := by
  intro es
  induction es with
  | nil =>
    intro lines c fl c2 _ h
    simp only [applyEditsLoop, Except.ok.injEq, Prod.mk.injEq] at h
    exact ⟨le_of_eq h.2, fun _ => h.1.symm⟩
  | cons e rest ih =>
    intro lines c fl c2 hv h
    simp only [applyEditsLoop] at h
    split at h
    · cases h
    · rename_i hns
      obtain ⟨h1, h2⟩ := hv e (by simp)
      have hrest : ∀ e' ∈ rest, 1 ≤ e'.line_start ∧ e'.line_start ≤ e'.line_end :=
        fun e' he' => hv e' (by simp [he'])
      split at h
      · rename_i hsec
        have ihr := ih _ _ _ _ hrest h
        have hst : (e.line_start - 1).toNat ≤ (min e.line_end (total : Int)).toNat := by
          omega
        have hlines : lines.take (e.line_start - 1).toNat
            ++ (ensureNewlines (splitlinesKeep e.new_content)
              ++ lines.drop (min e.line_end (total : Int)).toNat) = lines := by
          rw [← hsec]
          exact slice_ident lines _ _ hst
        constructor
        · omega
        · intro hc
          have := ihr.2 (by omega)
          rw [this, List.append_assoc, hlines]
      · rename_i hsec
        have ihr := ih _ _ _ _ hrest h
        have hge : 1 ≤ (min e.line_end (total : Int)).toNat - (e.line_start - 1).toNat := by
          omega
        constructor
        · omega
        · intro hc
          omega

/-- When validation and the edit loop both succeed and the result is a
verified no-op, `apply_line_edits` takes the unchanged path. -/
theorem apply_line_edits_ok_unchanged (content : Content) (edits : List LineEdit)
    (cb : Bool) (fl : List (List Char)) (ch : Nat)
    (hval : findValidationError (sortEditsDesc edits) = none)
    (hloop : applyEditsLoop (splitlinesKeep content).length (sortEditsDesc edits)
        (splitlinesKeep content) 0 = Except.ok (fl, ch))
    (hch : ch = 0) (hfl : joinLines fl = content) :
    apply_line_edits (some content) edits cb envOK
      = ⟨⟨true, 0, none, false, true, none⟩, some content, none⟩ := by
  simp only [apply_line_edits, envOK, hval, hloop]
  simp [hch, hfl]

/-- When validation and the edit loop both succeed and something changed,
`apply_line_edits` writes the new content and keeps the backup. -/
theorem apply_line_edits_ok_changed (content : Content) (edits : List LineEdit)
    (cb : Bool) (fl : List (List Char)) (ch : Nat)
    (hval : findValidationError (sortEditsDesc edits) = none)
    (hloop : applyEditsLoop (splitlinesKeep content).length (sortEditsDesc edits)
        (splitlinesKeep content) 0 = Except.ok (fl, ch))
    (h : ¬ (ch = 0 ∧ joinLines fl = content)) :
    apply_line_edits (some content) edits cb envOK
      = ⟨⟨true, ch, none, cb, false, none⟩, some (joinLines fl),
          if cb then some content else none⟩ := by
  simp only [apply_line_edits, envOK, hval, hloop]
  simp [h]

/-- `replace_string` when `old_string` does not occur: the no-op path. -/
theorem replace_string_noop_absent (content old_s new_s : Content) (maxr : Nat) (cb : Bool)
    (ho : occursIn old_s content = false) :
    replace_string (some content) old_s new_s maxr cb envOK
      = ⟨⟨true, 0, none, false, true, none⟩, some content, none⟩ := by
  simp only [replace_string, envOK]
  simp [ho]

/-- `replace_string` when the replacement leaves the text byte-identical:
the no-op path. -/
theorem replace_string_noop_same (content old_s new_s : Content) (maxr : Nat) (cb : Bool)
    (ho : occursIn old_s content = true)
    (hnew : (if 0 < maxr then pyReplace content old_s new_s (some maxr)
        else pyReplace content old_s new_s none) = content) :
    replace_string (some content) old_s new_s maxr cb envOK
      = ⟨⟨true, 0, none, false, true, none⟩, some content, none⟩ := by
  simp only [replace_string, envOK]
  simp [ho, hnew]

/-- `replace_string` when the replacement changes the text: the write
path. -/
theorem replace_string_changed (content old_s new_s : Content) (maxr : Nat) (cb : Bool)
    (ho : occursIn old_s content = true)
    (hnew : (if 0 < maxr then pyReplace content old_s new_s (some maxr)
        else pyReplace content old_s new_s none) ≠ content) :
    replace_string (some content) old_s new_s maxr cb envOK
      = ⟨⟨true,
          lineDiffCount content (if 0 < maxr then pyReplace content old_s new_s (some maxr)
            else pyReplace content old_s new_s none),
          none, cb, false,
          some (if 0 < maxr then min maxr (countOccur old_s content)
            else countOccur old_s content)⟩,
        some (if 0 < maxr then pyReplace content old_s new_s (some maxr)
          else pyReplace content old_s new_s none),
        if cb then some content else none⟩ := by
  simp only [replace_string, envOK]
  simp [ho]
  exact fun h => hnew h.symm

/-- `replace_string` when the replacement changes the text but the final
`shutil.move` raises mid-copy on the cross-device fallback: failure with
the destination holding a `k`-prefix of the new content. -/
theorem replace_string_move_fails_cross (content old_s new_s : Content) (maxr : Nat)
    (cb : Bool) (k : Nat)
    (ho : occursIn old_s content = true)
    (hnew : (if 0 < maxr then pyReplace content old_s new_s (some maxr)
        else pyReplace content old_s new_s none) ≠ content) :
    replace_string (some content) old_s new_s maxr cb ⟨false, false, false, true, true, k⟩
      = ⟨⟨false, 0, some .ioError, false, false, none⟩,
          some ((if 0 < maxr then pyReplace content old_s new_s (some maxr)
            else pyReplace content old_s new_s none).take k),
          if cb then some content else none⟩ := by
  simp only [replace_string]
  simp [ho]
  exact fun h => hnew h.symm

/-- C2 (confirmed): a valid edit replaces the inclusive line slice
`[line_start, min(line_end, total_lines)]` by `new_content` split into
lines with every non-final line forced to end in a terminator; and on the
file `"L1\nL2\nL3\nL4\n"` the single edit `{2, 3, "X\nY\n"}` produces
`"L1\nX\nY\nL4\n"` with `changed_lines = 2`. -/
theorem c2_slice_replacement :
    (∀ (content : Content) (e : LineEdit) (cb : Bool),
      editValid (splitlinesKeep content).length e →
      (apply_line_edits (some content) [e] cb envOK).result.success = true
      ∧ (apply_line_edits (some content) [e] cb envOK).fileAfter
          = some (joinLines
              ((splitlinesKeep content).take (e.line_start - 1).toNat
                ++ ensureNewlines (splitlinesKeep e.new_content)
                ++ (splitlinesKeep content).drop
                    (spanHi (splitlinesKeep content).length e).toNat)))
    ∧ ((apply_line_edits (some "L1\nL2\nL3\nL4\n".data) [⟨2, 3, "X\nY\n".data⟩]
          true envOK).fileAfter = some "L1\nX\nY\nL4\n".data
      ∧ (apply_line_edits (some "L1\nL2\nL3\nL4\n".data) [⟨2, 3, "X\nY\n".data⟩]
          true envOK).result.changed_lines = 2) := by
  constructor
  · intro content e cb hv
    obtain ⟨h1, h2, h3⟩ := hv
    simp only [spanHi]
    set lines := splitlinesKeep content with hldef
    set s := (e.line_start - 1).toNat with hsdef
    set t := (min e.line_end (lines.length : Int)).toNat with htdef
    set newL := ensureNewlines (splitlinesKeep e.new_content) with hnldef
    set ch := (0 + if (lines.take t).drop s = newL then 0 else t - s) with hchdef
    have hval : findValidationError (sortEditsDesc [e]) = none := by
      show findValidationError [e] = none
      simp only [findValidationError]
      rw [if_neg (by omega), if_neg (by omega)]
    have hloop : applyEditsLoop lines.length (sortEditsDesc [e]) lines 0
        = Except.ok (lines.take s ++ newL ++ lines.drop t, ch) := by
      show applyEditsLoop lines.length [e] lines 0 = _
      rw [applyEditsLoop, if_neg (by omega)]
      rfl
    by_cases hbr : ch = 0 ∧ joinLines (lines.take s ++ newL ++ lines.drop t) = content
    · rw [apply_line_edits_ok_unchanged content [e] cb _ ch hval hloop hbr.1 hbr.2]
      exact ⟨rfl, by rw [hbr.2]⟩
    · rw [apply_line_edits_ok_changed content [e] cb _ ch hval hloop hbr]
      exact ⟨rfl, rfl⟩
  · constructor
    · decide
    · decide

/-- C2 witness: the general slice-replacement theorem applied at the
spec's own scenario input. -/
theorem c2_witness :
    (apply_line_edits (some "L1\nL2\nL3\nL4\n".data) [⟨2, 3, "X\nY\n".data⟩]
        true envOK).result.success = true
    ∧ (apply_line_edits (some "L1\nL2\nL3\nL4\n".data) [⟨2, 3, "X\nY\n".data⟩]
        true envOK).fileAfter
      = some (joinLines
          ((splitlinesKeep "L1\nL2\nL3\nL4\n".data).take (((2 : Int)) - 1).toNat
            ++ ensureNewlines (splitlinesKeep "X\nY\n".data)
            ++ (splitlinesKeep "L1\nL2\nL3\nL4\n".data).drop
                (spanHi (splitlinesKeep "L1\nL2\nL3\nL4\n".data).length
                  ⟨2, 3, "X\nY\n".data⟩).toNat)) :=
  c2_slice_replacement.1 "L1\nL2\nL3\nL4\n".data ⟨2, 3, "X\nY\n".data⟩ true (by decide)

/-- C3 counterexample: two edits that cancel each other produce content
byte-identical to the original, yet the operation takes the write path:
`changed_lines = 2`, the backup is reported and stays on disk, and
`metadata.unchanged` is not set. -/
theorem c3_counterexample :
    (apply_line_edits (some "L1\nA\nL3\n".data)
        [⟨2, 2, "B\n".data⟩, ⟨2, 2, "A\n".data⟩] true envOK).fileAfter
      = some "L1\nA\nL3\n".data
    ∧ (apply_line_edits (some "L1\nA\nL3\n".data)
        [⟨2, 2, "B\n".data⟩, ⟨2, 2, "A\n".data⟩] true envOK).result.changed_lines = 2
    ∧ (apply_line_edits (some "L1\nA\nL3\n".data)
        [⟨2, 2, "B\n".data⟩, ⟨2, 2, "A\n".data⟩] true envOK).result.backup_path = true
    ∧ (apply_line_edits (some "L1\nA\nL3\n".data)
        [⟨2, 2, "B\n".data⟩, ⟨2, 2, "A\n".data⟩] true envOK).backupAfter
      = some "L1\nA\nL3\n".data
    ∧ (apply_line_edits (some "L1\nA\nL3\n".data)
        [⟨2, 2, "B\n".data⟩, ⟨2, 2, "A\n".data⟩] true envOK).result.unchanged = false := by
  refine ⟨by decide, by decide, by decide, by decide, by decide⟩

/-- C3 (corrected): for `apply_line_edits` the no-op path is taken exactly
when the accumulated change count is zero — i.e. every edit replaced its
slice by identical lines (which forces byte-identical content); for
`replace_string`, absent `old_string` or byte-identical replacement always
takes it.  On that path nothing is written, the fresh backup is deleted,
and the result is success with `changed_lines = 0`, no `backup_path`, and
`metadata.unchanged = true`. -/
theorem c3_noop_detection :
    (∀ (content : Content) (edits : List LineEdit) (fl : List (List Char)),
      findValidationError (sortEditsDesc edits) = none →
      applyEditsLoop (splitlinesKeep content).length (sortEditsDesc edits)
          (splitlinesKeep content) 0 = Except.ok (fl, 0) →
      apply_line_edits (some content) edits true envOK
        = ⟨⟨true, 0, none, false, true, none⟩, some content, none⟩)
    ∧ (∀ (content old_s new_s : Content) (maxr : Nat),
      (occursIn old_s content = false
        ∨ (if 0 < maxr then pyReplace content old_s new_s (some maxr)
           else pyReplace content old_s new_s none) = content) →
      replace_string (some content) old_s new_s maxr true envOK
        = ⟨⟨true, 0, none, false, true, none⟩, some content, none⟩) := by
  constructor
  · intro content edits fl hval hloop
    have hv := (findValidationError_eq_none _).mp hval
    have hfl : fl = splitlinesKeep content :=
      (applyEditsLoop_mono _ _ _ _ _ _ hv hloop).2 rfl
    exact apply_line_edits_ok_unchanged content edits true fl 0 hval hloop rfl
      (by rw [hfl, joinLines_splitlinesKeep])
  · intro content old_s new_s maxr hyp
    by_cases ho : occursIn old_s content
    · have hnew : (if 0 < maxr then pyReplace content old_s new_s (some maxr)
          else pyReplace content old_s new_s none) = content := by
        rcases hyp with h | h
        · simp [ho] at h
        · exact h
      exact replace_string_noop_same content old_s new_s maxr true ho hnew
    · exact replace_string_noop_absent content old_s new_s maxr true (by simpa using ho)

/-- C3 witness: the `replace_string` no-op path at a concrete input whose
file does not contain the search string. -/
theorem c3_witness :
    replace_string (some ['a', 'b']) ['Z'] ['Q'] 0 true envOK
      = ⟨⟨true, 0, none, false, true, none⟩, some ['a', 'b'], none⟩ :=
  c3_noop_detection.2 ['a', 'b'] ['Z'] ['Q'] 0 (Or.inl (by decide))

/-- Searching for a single character is exactly membership. -/
theorem occursIn_single (a : Char) (l : List Char) :
    occursIn [a] l = true ↔ a ∈ l := by
  induction l with
  | nil => simp [occursIn, List.isEmpty]
  | cons c rest ih =>
    simp only [occursIn, leadsWith, Bool.or_eq_true, Bool.and_eq_true, beq_iff_eq,
      List.mem_cons, ih]
    constructor
    · rintro (⟨h, _⟩ | h)
      · exact Or.inl h
      · exact Or.inr h
    · rintro (h | h)
      · exact Or.inl ⟨h, trivial⟩
      · exact Or.inr h

/-- Unbounded single-character replacement is a character map. -/
theorem pyReplace_single (a b : Char) :
    ∀ (l : List Char), pyReplace l [a] [b] none
      = l.map (fun c => if c = a then b else c) := by
  intro l
  induction l with
  | nil =>
    rw [pyReplace]
    simp
  | cons c rest ih =>
    rw [pyReplace]
    simp only [if_neg (show ¬ (none : Option Nat) = some 0 by simp)]
    by_cases hac : a = c
    · rw [dif_neg (show ¬ ([a] : List Char) = [] by simp),
        if_pos (show leadsWith [a] (c :: rest) = true by simp [leadsWith, hac])]
      simp [decLimit, ih, hac.symm]
    · rw [dif_neg (show ¬ ([a] : List Char) = [] by simp),
        if_neg (show ¬ leadsWith [a] (c :: rest) = true by simp [leadsWith, hac])]
      simp only [List.map_cons, ih, List.cons.injEq]
      exact ⟨(if_neg (fun h => hac h.symm)).symm, trivial⟩

/-- Mapping `a ↦ b` then `b ↦ a` is the identity on text without `b`. -/
theorem map_swap_roundtrip (a b : Char) (hab : b ≠ a) :
    ∀ (l : List Char), b ∉ l →
      ((l.map (fun c => if c = a then b else c)).map
        (fun c => if c = b then a else c)) = l := by
  intro l
  induction l with
  | nil => simp
  | cons c rest ih =>
    intro hb
    simp only [List.map_cons, List.cons.injEq]
    constructor
    · by_cases hc : c = a
      · simp [hc, hab]
      · have hcb : ¬ c = b := fun e => hb (by simp [e])
        simp [hc, hcb]
    · exact ih (fun hmem => hb (List.mem_cons_of_mem _ hmem))

/-- Mapping `a ↦ b` with `b ≠ a` genuinely changes text containing `a`. -/
theorem map_swap_ne (a b : Char) (hab : b ≠ a) :
    ∀ (l : List Char), a ∈ l → l.map (fun c => if c = a then b else c) ≠ l := by
  intro l
  induction l with
  | nil => simp
  | cons c rest ih =>
    intro hm heq
    simp only [List.map_cons, List.cons.injEq] at heq
    rcases List.mem_cons.mp hm with h | h
    · rw [← h] at heq
      simp at heq
      exact hab heq.1
    · exact ih h heq.2

/-- C5 counterexample: the file `"XY"` contains (only non-overlapping)
occurrences of `"X"`, yet replacing `X → Y` and then `Y → X` yields
`"XX"`, not the original `"XY"`. -/
theorem c5_counterexample :
    occursIn ['X'] ['X', 'Y'] = true
    ∧ (replace_string (replace_string (some ['X', 'Y']) ['X'] ['Y'] 0 true envOK).fileAfter
        ['Y'] ['X'] 0 true envOK).fileAfter = some ['X', 'X']
    ∧ (['X', 'X'] : List Char) ≠ ['X', 'Y'] := by
  refine ⟨by decide, ?_, by decide⟩
  have hr1 : pyReplace ['X', 'Y'] ['X'] ['Y'] none = ['Y', 'Y'] := by
    rw [pyReplace_single]
    decide
  have h1 := replace_string_changed ['X', 'Y'] ['X'] ['Y'] 0 true (by decide)
    (by simpa [hr1] using (by decide : (['Y', 'Y'] : List Char) ≠ ['X', 'Y']))
  rw [h1]
  have hr2 : pyReplace ['Y', 'Y'] ['Y'] ['X'] none = ['X', 'X'] := by
    rw [pyReplace_single]
    decide
  have h2 := replace_string_changed ['Y', 'Y'] ['Y'] ['X'] 0 true (by decide)
    (by simpa [hr2] using (by decide : (['X', 'X'] : List Char) ≠ ['Y', 'Y']))
  show (replace_string (some (pyReplace ['X', 'Y'] ['X'] ['Y'] none))
      ['Y'] ['X'] 0 true envOK).fileAfter = some ['X', 'X']
  rw [hr1, h2]
  simpa using hr2

/-- C5 (corrected): the round trip `replace_string(X → Y)` then
`replace_string(Y → X)` (both unbounded, backups enabled) restores the
original byte content for every file that does not already contain
`'Y'` — the character the first pass introduces. -/
theorem c5_roundtrip_without_Y :
    ∀ (content : Content), 'Y' ∉ content →
      (replace_string (some content) ['X'] ['Y'] 0 true envOK).result.success = true
      ∧ (replace_string (replace_string (some content) ['X'] ['Y'] 0 true envOK).fileAfter
          ['Y'] ['X'] 0 true envOK).result.success = true
      ∧ (replace_string (replace_string (some content) ['X'] ['Y'] 0 true envOK).fileAfter
          ['Y'] ['X'] 0 true envOK).fileAfter = some content := by
  intro content hy
  by_cases hx : 'X' ∈ content
  · have ho1 : occursIn ['X'] content = true := (occursIn_single _ _).mpr hx
    have hrepl1 : pyReplace content ['X'] ['Y'] none
        = content.map (fun c => if c = 'X' then 'Y' else c) := pyReplace_single _ _ _
    have hne1 : pyReplace content ['X'] ['Y'] none ≠ content := by
      rw [hrepl1]
      exact map_swap_ne 'X' 'Y' (by decide) content hx
    have h1 := replace_string_changed content ['X'] ['Y'] 0 true ho1 (by simpa using hne1)
    have hymem : 'Y' ∈ pyReplace content ['X'] ['Y'] none := by
      rw [hrepl1]
      simpa using List.mem_map_of_mem (fun c => if c = 'X' then 'Y' else c) hx
    have ho2 : occursIn ['Y'] (pyReplace content ['X'] ['Y'] none) = true :=
      (occursIn_single _ _).mpr hymem
    have hrepl2 : pyReplace (pyReplace content ['X'] ['Y'] none) ['Y'] ['X'] none
        = content := by
      rw [hrepl1, pyReplace_single]
      exact map_swap_roundtrip 'X' 'Y' (by decide) content hy
    have hne2 : pyReplace (pyReplace content ['X'] ['Y'] none) ['Y'] ['X'] none
        ≠ pyReplace content ['X'] ['Y'] none := by
      rw [hrepl2]
      exact fun e => hne1 e.symm
    have h2 := replace_string_changed (pyReplace content ['X'] ['Y'] none)
      ['Y'] ['X'] 0 true ho2 (by simpa using hne2)
    rw [h1]
    refine ⟨rfl, ?_⟩
    show (replace_string (some (pyReplace content ['X'] ['Y'] none))
        ['Y'] ['X'] 0 true envOK).result.success = true
      ∧ (replace_string (some (pyReplace content ['X'] ['Y'] none))
          ['Y'] ['X'] 0 true envOK).fileAfter = some content
    rw [h2]
    refine ⟨rfl, ?_⟩
    simpa using hrepl2
  · have ho1 : occursIn ['X'] content = false := by
      cases h : occursIn ['X'] content
      · rfl
      · exact absurd ((occursIn_single _ _).mp h) hx
    have ho2 : occursIn ['Y'] content = false := by
      cases h : occursIn ['Y'] content
      · rfl
      · exact absurd ((occursIn_single _ _).mp h) hy
    rw [replace_string_noop_absent content ['X'] ['Y'] 0 true ho1]
    refine ⟨rfl, ?_⟩
    show (replace_string (some content) ['Y'] ['X'] 0 true envOK).result.success = true
      ∧ (replace_string (some content) ['Y'] ['X'] 0 true envOK).fileAfter = some content
    rw [replace_string_noop_absent content ['Y'] ['X'] 0 true ho2]
    exact ⟨rfl, rfl⟩

/-- C5 witness: the amended round trip at the concrete file `"XaX"`. -/
theorem c5_witness :
    (replace_string (some ['X', 'a', 'X']) ['X'] ['Y'] 0 true envOK).result.success = true
    ∧ (replace_string (replace_string (some ['X', 'a', 'X']) ['X'] ['Y'] 0 true envOK).fileAfter
        ['Y'] ['X'] 0 true envOK).result.success = true
    ∧ (replace_string (replace_string (some ['X', 'a', 'X']) ['X'] ['Y'] 0 true envOK).fileAfter
        ['Y'] ['X'] 0 true envOK).fileAfter = some ['X', 'a', 'X'] :=
  c5_roundtrip_without_Y ['X', 'a', 'X'] (by decide)

/-- Every chunk yielded by the byte-mode loop carries a chunk number above
the running counter, no error, its own payload size, a cumulative byte
count, and a definite `is_last_chunk` flag. -/
theorem streamBytesLoop_mem (n fs est : Nat) :
    ∀ (bytes : Content) (k br : Nat) (p : Content × ChunkMeta),
      p ∈ streamBytesLoop n fs est bytes k br →
      k + 1 ≤ p.2.chunk_number ∧ p.2.error = false
      ∧ p.2.bytes_in_chunk = some p.1.length
      ∧ p.2.bytes_read_so_far.isSome = true
      ∧ p.2.is_last_chunk.isSome = true
  | bytes, k, br, p, hp => by
    rw [streamBytesLoop] at hp
    split at hp
    · simp at hp
    · rename_i hne
      rcases List.mem_cons.mp hp with he | ht
      · subst he
        exact ⟨Nat.le_refl _, rfl, rfl, rfl, rfl⟩
      · have h1 : bytes ≠ [] := fun e => hne (by simp [e])
        have h2 : n ≠ 0 := fun e => hne (by simp [e])
        have hlen : (bytes.drop n).length < bytes.length := by
          have h3 := List.length_pos.mpr h1
          simp only [List.length_drop]
          omega
        obtain ⟨ih1, ih2⟩ := streamBytesLoop_mem n fs est (bytes.drop n) (k + 1)
          (br + (bytes.take n).length) p ht
        exact ⟨by omega, ih2⟩
termination_by bytes _ _ _ _ => bytes.length
decreasing_by
  simpa using hlen

/-- Every chunk yielded by the line-mode loop carries a chunk number above
the running counter, no error, its line count and cumulative line count —
and no `is_last_chunk` key at all. -/
theorem streamLinesLoop_mem (n fs : Nat) :
    ∀ (lines : List (List Char)) (k t : Nat) (p : Content × ChunkMeta),
      p ∈ streamLinesLoop n fs lines k t →
      k + 1 ≤ p.2.chunk_number ∧ p.2.error = false
      ∧ p.2.lines_in_chunk.isSome = true
      ∧ p.2.lines_read_so_far.isSome = true
      ∧ p.2.is_last_chunk = none
  | lines, k, t, p, hp => by
    rw [streamLinesLoop] at hp
    split at hp
    · simp at hp
    · rename_i hne
      rcases List.mem_cons.mp hp with he | ht
      · subst he
        exact ⟨Nat.le_refl _, rfl, rfl, rfl, rfl⟩
      · have h1 : lines ≠ [] := fun e => hne (by simp [e])
        have h2 : n ≠ 0 := fun e => hne (by simp [e])
        have hlen : (lines.drop n).length < lines.length := by
          have h3 := List.length_pos.mpr h1
          simp only [List.length_drop]
          omega
        obtain ⟨ih1, ih2⟩ := streamLinesLoop_mem n fs (lines.drop n) (k + 1)
          (t + (lines.take n).length) p ht
        exact ⟨by omega, ih2⟩
termination_by lines _ _ _ _ => lines.length
decreasing_by
  simpa using hlen

/-- The byte-mode loop yields every byte of the remaining input: the
concatenation of its payloads is the input. -/
theorem streamBytesLoop_flatten (n fs est : Nat) (hn : n ≠ 0) :
    ∀ (bytes : Content) (k br : Nat),
      joinLines ((streamBytesLoop n fs est bytes k br).map Prod.fst) = bytes
  | bytes, k, br => by
    rw [streamBytesLoop]
    split
    · rename_i he
      have : bytes = [] := by
        cases bytes with
        | nil => rfl
        | cons c rest =>
          cases n with
          | zero => exact absurd rfl hn
          | succ m => simp at he
      simp [this, joinLines]
    · rename_i hne
      have h1 : bytes ≠ [] := fun e => hne (by simp [e])
      have hlen : (bytes.drop n).length < bytes.length := by
        have h3 := List.length_pos.mpr h1
        simp only [List.length_drop]
        omega
      have ih := streamBytesLoop_flatten n fs est hn (bytes.drop n) (k + 1)
        (br + (bytes.take n).length)
      simp only [List.map_cons, joinLines, List.flatten_cons]
      rw [show List.flatten (List.map Prod.fst (streamBytesLoop n fs est
          (bytes.drop n) (k + 1) (br + (bytes.take n).length))) = bytes.drop n from ih]
      exact List.take_append_drop n bytes
termination_by bytes _ _ => bytes.length
decreasing_by
  simpa using hlen

/-- C9 counterexample: streaming the one-line file `"A\n"` in line mode
yields a single chunk whose metadata carries no `is_last_chunk` key, so
line-mode chunk metadata does not contain the claimed boolean. -/
theorem c9_counterexample :
    stream_file_by_lines (some ['A', '\n']) 1000
      = [(['A', '\n'], ⟨1, false, some 2, some 1, some 1, none, none, none, none⟩)]
    ∧ (⟨1, false, some 2, some 1, some 1, none, none, none, none⟩ : ChunkMeta).is_last_chunk
      = none := by
  refine ⟨?_, rfl⟩
  show streamLinesLoop 1000 2 (splitlinesKeep ['A', '\n']) 0 0 = _
  rw [show splitlinesKeep ['A', '\n'] = [['A', '\n']] from by decide]
  rw [streamLinesLoop]
  rw [dif_neg (show ¬ (List.take 1000 [['A', '\n']] : List (List Char)) = [] from by decide)]
  rw [show (List.drop 1000 [['A', '\n']] : List (List Char)) = [] from by decide]
  rw [streamLinesLoop]
  simp [joinLines]

/-- C9 (corrected): byte-mode chunks each carry `chunk_number ≥ 1`, their
payload size, a cumulative byte count and an `is_last_chunk` flag, and
together they yield the whole file; line-mode chunks carry
`chunk_number ≥ 1`, their line count and a cumulative line count but no
`is_last_chunk` key; on a missing path both modes yield exactly the single
sentinel error chunk with `chunk_number = 0`. -/
theorem c9_chunk_metadata :
    (∀ (content : Content) (n : Nat) (p : Content × ChunkMeta), n ≠ 0 →
      p ∈ stream_file_by_bytes (some content) n →
      1 ≤ p.2.chunk_number ∧ p.2.error = false
      ∧ p.2.bytes_in_chunk = some p.1.length
      ∧ p.2.bytes_read_so_far.isSome = true
      ∧ p.2.is_last_chunk.isSome = true)
    ∧ (∀ (content : Content) (n : Nat), n ≠ 0 →
      joinLines ((stream_file_by_bytes (some content) n).map Prod.fst) = content)
    ∧ (∀ (content : Content) (n : Nat) (p : Content × ChunkMeta),
      p ∈ stream_file_by_lines (some content) n →
      1 ≤ p.2.chunk_number ∧ p.2.error = false
      ∧ p.2.lines_in_chunk.isSome = true
      ∧ p.2.lines_read_so_far.isSome = true
      ∧ p.2.is_last_chunk = none)
    ∧ (∀ (n : Nat),
      stream_file_by_bytes none n = [([], errChunkMeta)]
      ∧ stream_file_by_lines none n = [([], errChunkMeta)]
      ∧ errChunkMeta.chunk_number = 0 ∧ errChunkMeta.error = true) := by
  refine ⟨?_, ?_, ?_, ?_⟩
  · intro content n p hn hp
    simp only [stream_file_by_bytes] at hp
    rw [if_neg hn] at hp
    exact streamBytesLoop_mem n content.length _ content 0 0 p hp
  · intro content n hn
    simp only [stream_file_by_bytes]
    rw [if_neg hn]
    exact streamBytesLoop_flatten n content.length _ hn content 0 0
  · intro content n p hp
    exact streamLinesLoop_mem n content.length (splitlinesKeep content) 0 0 p hp
  · intro n
    exact ⟨rfl, rfl, rfl, rfl⟩

/-- C9 witness: the byte-mode metadata theorem applied to the only chunk of
the one-byte file `"A"`. -/
theorem c9_witness :
    1 ≤ ((['A'], ⟨1, false, some 1, none, none, some 1, some 1, some 1, some true⟩)
        : Content × ChunkMeta).2.chunk_number
    ∧ ((['A'], ⟨1, false, some 1, none, none, some 1, some 1, some 1, some true⟩)
        : Content × ChunkMeta).2.error = false
    ∧ ((['A'], ⟨1, false, some 1, none, none, some 1, some 1, some 1, some true⟩)
        : Content × ChunkMeta).2.bytes_in_chunk
      = some ((['A'], ⟨1, false, some 1, none, none, some 1, some 1, some 1, some true⟩)
        : Content × ChunkMeta).1.length
    ∧ ((['A'], ⟨1, false, some 1, none, none, some 1, some 1, some 1, some true⟩)
        : Content × ChunkMeta).2.bytes_read_so_far.isSome = true
    ∧ ((['A'], ⟨1, false, some 1, none, none, some 1, some 1, some 1, some true⟩)
        : Content × ChunkMeta).2.is_last_chunk.isSome = true := by
  apply c9_chunk_metadata.1 ['A'] 8192 _ (by decide)
  show _ ∈ streamBytesLoop 8192 1 1 ['A'] 0 0
  rw [streamBytesLoop]
  rw [dif_neg (show ¬ (List.take 8192 ['A'] : List Char) = [] from by decide)]
  rw [show (List.drop 8192 ['A'] : List Char) = [] from by decide]
  rw [streamBytesLoop]
  simp

/-- After the stable descending sort, pairwise-disjoint valid edits are
ordered so that every later edit's span lies strictly below every earlier
edit's start line. -/
theorem sorted_disjoint_below (total : Nat) (es : List LineEdit)
    (hv : ∀ e ∈ es, editValid total e)
    (hs : List.Sorted (fun a b : LineEdit => b.line_start ≤ a.line_start) es)
    (hd : List.Pairwise (disjointEdits total) es) :
    List.Pairwise (fun a b => spanHi total b < a.line_start) es := by
  have hand := List.Pairwise.and hs hd
  refine List.Pairwise.imp_of_mem ?_ hand
  intro a b ha hb hab
  obtain ⟨h1a, h2a, h3a⟩ := hv a ha
  obtain ⟨h1b, h2b, h3b⟩ := hv b hb
  rcases hab.2 with h | h
  · exfalso
    have hle := hab.1
    simp only [spanHi] at h
    omega
  · exact h

/-- With valid edits whose spans lie strictly below every earlier edit's
start — so that the slices they read are still original lines — the edit
loop succeeds and adds exactly the original-lines contribution of every
edit. -/
theorem applyEditsLoop_sum (orig : List (List Char)) :
    ∀ (es : List LineEdit) (lines : List (List Char)) (c : Nat),
      (∀ e ∈ es, editValid orig.length e) →
      List.Pairwise (fun a b => spanHi orig.length b < a.line_start) es →
      (∀ e ∈ es, lines.take (spanHi orig.length e).toNat
          = orig.take (spanHi orig.length e).toNat) →
      ∃ fl, applyEditsLoop orig.length es lines c
          = Except.ok (fl, c + (es.map (origContrib orig)).sum) := by
  intro es
  induction es with
  | nil =>
    intro lines c _ _ _
    exact ⟨lines, by simp [applyEditsLoop]⟩
  | cons e rest ih =>
    intro lines c hv hp hpre
    obtain ⟨h1, h2, h3⟩ := hv e (List.mem_cons_self e rest)
    obtain ⟨hhead, htail⟩ := List.pairwise_cons.mp hp
    set s := (e.line_start - 1).toNat with hs_def
    set tN := (spanHi orig.length e).toNat with ht_def
    set newL := ensureNewlines (splitlinesKeep e.new_content) with hnl_def
    have hst : s + 1 ≤ tN := by
      simp only [hs_def, ht_def, spanHi]
      omega
    have ht_le : tN ≤ orig.length := by
      simp only [ht_def, spanHi]
      omega
    have hpre_e := hpre e (List.mem_cons_self e rest)
    have hlen : tN ≤ lines.length := by
      have hlen2 : (lines.take tN).length = (orig.take tN).length := by
        rw [hpre_e]
      simp only [List.length_take] at hlen2
      omega
    have hsec : (lines.take tN).drop s = (orig.take tN).drop s := by
      rw [hpre_e]
    have hvalid_rest : ∀ e' ∈ rest, editValid orig.length e' :=
      fun e' he' => hv e' (List.mem_cons_of_mem _ he')
    have hpre2 : ∀ e' ∈ rest,
        (lines.take s ++ newL ++ lines.drop tN).take (spanHi orig.length e').toNat
          = orig.take (spanHi orig.length e').toNat := by
      intro e' he'
      have hlt := hhead e' he'
      obtain ⟨h1', h2', h3'⟩ := hvalid_rest e' he'
      set m := (spanHi orig.length e').toNat with hm_def
      have hm_le_s : m ≤ s := by
        simp only [hm_def, hs_def, spanHi] at *
        omega
      have hm_le_t : m ≤ tN := by omega
      have hsl : (lines.take s).length = s := by
        simp only [List.length_take]
        omega
      have e1 : (lines.take s ++ newL ++ lines.drop tN).take m
          = (lines.take s ++ newL).take m := by
        apply List.take_append_of_le_length
        simp only [List.length_append]
        omega
      have e2 : (lines.take s ++ newL).take m = (lines.take s).take m := by
        apply List.take_append_of_le_length
        omega
      have e3 : (lines.take s).take m = lines.take m := by
        rw [List.take_take, min_eq_left hm_le_s]
      have e4 : lines.take m = orig.take m := by
        have := congrArg (List.take m) hpre_e
        rwa [List.take_take, List.take_take, min_eq_left hm_le_t] at this
      rw [e1, e2, e3, e4]
    have hloopstep : applyEditsLoop orig.length (e :: rest) lines c
        = applyEditsLoop orig.length rest (lines.take s ++ newL ++ lines.drop tN)
            (c + if (lines.take tN).drop s = newL then 0 else tN - s) := by
      rw [applyEditsLoop, if_neg (by omega : ¬ (orig.length : Int) < e.line_start)]
      rfl
    have hcontrib : (if (lines.take tN).drop s = newL then 0 else tN - s)
        = origContrib orig e := by
      rw [hsec]
      simp only [origContrib, ht_def, hs_def, hnl_def]
    obtain ⟨fl, hfl⟩ := ih (lines.take s ++ newL ++ lines.drop tN)
      (c + if (lines.take tN).drop s = newL then 0 else tN - s)
      hvalid_rest htail hpre2
    refine ⟨fl, ?_⟩
    rw [hloopstep, hfl, hcontrib]
    simp only [List.map_cons, List.sum_cons]
    rw [Nat.add_assoc]

/-- C1 counterexample: a single edit rewriting line 1 of `"A\n"` with
identical text is a successful call reporting `changed_lines = 0`, while
the claim's sum of per-edit original spans over the batch is 1. -/
theorem c1_counterexample :
    (apply_line_edits (some ['A', '\n']) [⟨1, 1, ['A', '\n']⟩] true envOK).result.success
      = true
    ∧ (apply_line_edits (some ['A', '\n']) [⟨1, 1, ['A', '\n']⟩] true envOK).result.changed_lines
      = 0
    ∧ (([⟨1, 1, ['A', '\n']⟩] : List LineEdit).map
        (fun e => (spanHi (splitlinesKeep ['A', '\n']).length e - e.line_start + 1).toNat)).sum
      = 1 := by
  refine ⟨by decide, by decide, by decide⟩

/-- C1 (corrected): for every successful `apply_line_edits` call on a batch
of valid, pairwise span-disjoint edits, the reported `changed_lines` is
the sum of the original spans `min(line_end, total_lines) - line_start + 1`
of exactly those edits whose replacement differs from the original lines
they replace; an edit whose replacement equals its slice contributes 0,
and the replacement's own line count never enters the total. -/
theorem c1_changed_lines_sum :
    ∀ (content : Content) (edits : List LineEdit) (cb : Bool),
      (∀ e ∈ edits, editValid (splitlinesKeep content).length e) →
      List.Pairwise (disjointEdits (splitlinesKeep content).length) edits →
      (apply_line_edits (some content) edits cb envOK).result.success = true
      ∧ (apply_line_edits (some content) edits cb envOK).result.changed_lines
          = (edits.map (origContrib (splitlinesKeep content))).sum := by
  intro content edits cb hv hd
  set orig := splitlinesKeep content with horig
  have hperm : (sortEditsDesc edits).Perm edits := List.perm_insertionSort _ _
  have hv' : ∀ e ∈ sortEditsDesc edits, editValid orig.length e :=
    fun e he => hv e (hperm.mem_iff.mp he)
  haveI : IsTotal LineEdit (fun a b => b.line_start ≤ a.line_start) :=
    ⟨fun a b => le_total b.line_start a.line_start⟩
  haveI : IsTrans LineEdit (fun a b => b.line_start ≤ a.line_start) :=
    ⟨fun _ _ _ hab hbc => le_trans hbc hab⟩
  have hsorted : List.Sorted (fun a b : LineEdit => b.line_start ≤ a.line_start)
      (sortEditsDesc edits) := List.sorted_insertionSort _ _
  have hd' : List.Pairwise (disjointEdits orig.length) (sortEditsDesc edits) :=
    (List.Perm.pairwise_iff (fun h => h.symm) hperm).mpr hd
  have hbelow := sorted_disjoint_below orig.length (sortEditsDesc edits) hv' hsorted hd'
  have hval : findValidationError (sortEditsDesc edits) = none :=
    (findValidationError_eq_none _).mpr (fun e he => ⟨(hv' e he).1, (hv' e he).2.1⟩)
  obtain ⟨fl, hloop⟩ := applyEditsLoop_sum orig (sortEditsDesc edits) orig 0 hv' hbelow
    (fun e _ => rfl)
  have hsum : ((sortEditsDesc edits).map (origContrib orig)).sum
      = (edits.map (origContrib orig)).sum := (hperm.map _).sum_eq
  by_cases hbr : (0 + ((sortEditsDesc edits).map (origContrib orig)).sum = 0)
      ∧ joinLines fl = content
  · rw [apply_line_edits_ok_unchanged content edits cb fl _ hval hloop hbr.1 hbr.2]
    refine ⟨rfl, ?_⟩
    show (0 : Nat) = (edits.map (origContrib orig)).sum
    have := hbr.1
    omega
  · rw [apply_line_edits_ok_changed content edits cb fl _ hval hloop hbr]
    refine ⟨rfl, ?_⟩
    show 0 + ((sortEditsDesc edits).map (origContrib orig)).sum
        = (edits.map (origContrib orig)).sum
    omega

/-- C1 witness: the amended change accounting at a concrete two-line edit
whose replacement is a single line — `changed_lines` is the span width 2,
not the replacement's line count 1. -/
theorem c1_witness :
    (apply_line_edits (some "A\nB\nC\n".data) [⟨1, 2, "Q\n".data⟩] true envOK).result.success
      = true
    ∧ (apply_line_edits (some "A\nB\nC\n".data) [⟨1, 2, "Q\n".data⟩] true envOK).result.changed_lines
      = (([⟨1, 2, "Q\n".data⟩] : List LineEdit).map
          (origContrib (splitlinesKeep "A\nB\nC\n".data))).sum :=
  c1_changed_lines_sum "A\nB\nC\n".data [⟨1, 2, "Q\n".data⟩] true (by decide) (by decide)

/-- C4 (code_bug): the code's temp file is created by `NamedTemporaryFile`
with no `dir=` (`writer.py` lines 163, 281), i.e. in the system temp
directory, so when that directory lies on a different filesystem than the
target, `shutil.move` is not an atomic rename but a `copy2` fallback.  An
I/O error in the middle of that copy is caught by the surrounding
`except` and reported as `success = false` — with the destination already
partially overwritten, contradicting the claim, the code's own "Atomic
move temp file to original" comment, and the spec's same-directory temp
file.  At this input the one-line file `"A\n"`, rewritten to `"X\n"` by
either entry point (backup enabled), is left containing just `"X"`:
neither the old nor the new content. -/
theorem c4_move_failure_partial_state :
    (apply_line_edits (some ['A', '\n']) [⟨1, 1, ['X', '\n']⟩] true
        ⟨false, false, false, true, true, 1⟩).result.success = false
    ∧ (apply_line_edits (some ['A', '\n']) [⟨1, 1, ['X', '\n']⟩] true
        ⟨false, false, false, true, true, 1⟩).fileAfter = some ['X']
    ∧ (replace_string (some ['A', '\n']) ['A'] ['X'] 0 true
        ⟨false, false, false, true, true, 1⟩).result.success = false
    ∧ (replace_string (some ['A', '\n']) ['A'] ['X'] 0 true
        ⟨false, false, false, true, true, 1⟩).fileAfter = some ['X']
    ∧ some ['X'] ≠ (some ['A', '\n'] : Option Content)
    ∧ some ['X'] ≠ (some ['X', '\n'] : Option Content) := by
  have hr : pyReplace ['A', '\n'] ['A'] ['X'] none = ['X', '\n'] := by
    rw [pyReplace_single]
    decide
  have h := replace_string_move_fails_cross ['A', '\n'] ['A'] ['X'] 0 true 1
    (by decide) (by simpa [hr] using (by decide : (['X', '\n'] : Content) ≠ ['A', '\n']))
  refine ⟨by decide, by decide, ?_, ?_, by decide, by decide⟩
  · rw [h]
  · rw [h]
    simpa using congrArg (List.take 1) hr

end SpiderFS
